import Mathlib

/-!
# Verification of the graph-RAG retrieval pipeline

A shallow embedding of the repository's core: graph construction (`kg.py`),
name lookup, incident-relationship listing, bounded breadth-first traversal
with deduplication, entity detection (`query.py`), context building
(`rag.py`), and the answer-generation branch of the orchestrator
(`graph.py`).  Python dictionaries are modelled as association lists
(`List (String × String)`), Python string values (including integers that
are only ever rendered into f-strings) as `String`, Python substring tests
(`a in b`) as `List.IsInfix` on the underlying character lists, and
`networkx.MultiDiGraph` as a list of nodes plus an insertion-ordered list
of edges.
-/

set_option maxHeartbeats 1000000
set_option maxRecDepth 100000

/-- Python `a in b` on strings: substring containment, as a decidable Bool.
Mirrors CPython semantics for the ASCII data this repository uses. -/
def pyIn (needle hay : String) : Bool := decide (needle.data <:+: hay.data)

/-- Python `str.lower()` (ASCII fragment, which is all the data uses),
as a structural map over the character list so that it evaluates inside
the kernel. -/
def pyLower (s : String) : String := ⟨s.data.map Char.toLower⟩

/-- Python `sep.join(parts)`. -/
def pyJoin (sep : String) : List String → String
  | [] => ""
  | [x] => x
  | x :: y :: rest => x ++ sep ++ pyJoin sep (y :: rest)

/-- Rendering of an optional string into a Python f-string:
`None` renders as the literal string `"None"`. -/
def pyStr (o : Option String) : String :=
  match o with
  | none => "None"
  | some s => s

/-- One step of Python `str.title()`: a cased character that follows a
non-alphabetic character is uppercased, one that follows an alphabetic
character is lowercased.  The `Bool` argument records whether the previous
character was alphabetic. -/
def pyTitleGo : Bool → List Char → List Char
  | _, [] => []
  | prevAlpha, c :: cs =>
      (if c.isAlpha then (if prevAlpha then c.toLower else c.toUpper) else c)
        :: pyTitleGo c.isAlpha cs

/-- Python `str.title()` (ASCII fragment, which is all the data uses). -/
def pyTitle (s : String) : String := ⟨pyTitleGo false s.data⟩

/-- The `seen`-set deduplication pattern used in `traverse_from_node`
(kg.py lines 110-117) and `build_context_node` (graph.py lines 147-155):
walk the list keeping the first element for each key, where `seen` is the
accumulator of keys already kept. -/
def dedupByKeyAux {α κ : Type} [DecidableEq κ] (key : α → κ) (seen : List κ) :
    List α → List α
  | [] => []
  | x :: xs =>
      if key x ∈ seen then dedupByKeyAux key seen xs
      else x :: dedupByKeyAux key (key x :: seen) xs

/-- Deduplicate a list by a key, keeping the first occurrence of each key. -/
def dedupByKey {α κ : Type} [DecidableEq κ] (key : α → κ) (l : List α) : List α :=
  dedupByKeyAux key [] l

/-- First-occurrence deduplication of a plain list, mirroring the iteration
order of a `networkx` adjacency dictionary (keys keep first-insertion
order).  Used to model `G.successors` / `G.predecessors`, which yield each
neighbor once. -/
def dedupFirst : List String → List String
  | [] => []
  | x :: xs => x :: (dedupFirst xs).filter (fun y => y ≠ x)

/-- Python `dict.__setitem__` on an association list: overwrite in place if
the key exists, else append. -/
def setAttr (m : List (String × String)) (k v : String) : List (String × String) :=
  if k ∈ m.map Prod.fst then m.map (fun p => if p.1 = k then (k, v) else p)
  else m ++ [(k, v)]

/-- Python `dict.update`: fold `setAttr` over the new bindings. -/
def updateAttrs (m : List (String × String)) : List (String × String) → List (String × String)
  | [] => m
  | (k, v) :: rest => updateAttrs (setAttr m k v) rest

/-- A directed, labeled, attributed edge of the knowledge graph, as stored
by `G.add_edge(source, target, relation=rel_type, **attrs)` in kg.py. -/
structure Edge where
  src : String
  tgt : String
  relation : String
  attrs : List (String × String)
deriving DecidableEq, Repr

/-- The `networkx.MultiDiGraph`: nodes (id paired with its attribute
dictionary) in insertion order, and a multiset of edges kept in insertion
order. -/
structure Graph where
  nodes : List (String × List (String × String))
  edges : List Edge
deriving DecidableEq, Repr

/-- The node-id set of the graph. -/
def Graph.nodeIds (g : Graph) : List String := g.nodes.map Prod.fst

/-- `G.nodes[id]` / `G.nodes(data=True)` attribute lookup. -/
def Graph.nodeData (g : Graph) (node_id : String) : Option (List (String × String)) :=
  (g.nodes.find? (fun p => p.1 = node_id)).map Prod.snd

/-- `G.nodes[id].get("name")`: the display name of a node, when present. -/
def Graph.nodeName (g : Graph) (node_id : String) : Option String :=
  (g.nodeData node_id).bind (fun d => d.lookup "name")

/-- `networkx` `G.add_node(id, **attrs)`: update the attribute dictionary
if the node exists, else append a fresh node. -/
def Graph.add_node (g : Graph) (node_id : String) (attrs : List (String × String)) : Graph :=
  if node_id ∈ g.nodeIds then
    { g with nodes := g.nodes.map (fun p => if p.1 = node_id then (p.1, updateAttrs p.2 attrs) else p) }
  else
    { g with nodes := g.nodes ++ [(node_id, attrs)] }

/-- `networkx` `G.add_edge(src, tgt, relation=rel, **attrs)`: silently adds
any endpoint that is not yet a node (with an empty attribute dictionary),
then appends the edge. -/
def Graph.add_edge (g : Graph) (src tgt relation : String) (attrs : List (String × String)) : Graph :=
  let g1 := if src ∈ g.nodeIds then g else { g with nodes := g.nodes ++ [(src, [])] }
  let g2 := if tgt ∈ g1.nodeIds then g1 else { g1 with nodes := g1.nodes ++ [(tgt, [])] }
  { g2 with edges := g2.edges ++ [⟨src, tgt, relation, attrs⟩] }

/-- A relationship seed tuple `(source_id, target_id, relationship_type, attributes)`
as in data.py. -/
def RelSeed : Type := String × String × String × List (String × String)

/-- `create_knowledge_graph` (kg.py lines 10-29), parameterized by the seed
collections it reads from data.py: add the people nodes, then the company
nodes (`G.add_node(x["id"], **x)`, so the id is the node key and the whole
record is the attribute dictionary), then the relationships as edges. -/
def create_knowledge_graph (people companies : List (String × List (String × String)))
    (relationships : List RelSeed) : Graph :=
  let g0 : Graph := { nodes := [], edges := [] }
  let g1 := people.foldl (fun g p => g.add_node p.1 p.2) g0
  let g2 := companies.foldl (fun g c => g.add_node c.1 c.2) g1
  relationships.foldl (fun g r => g.add_edge r.1 r.2.1 r.2.2.1 r.2.2.2) g2

/-- The `PEOPLE` seed list of data.py. -/
def PEOPLE : List (String × List (String × String)) :=
  [ ("p1", [("id", "p1"), ("name", "Elon Musk"), ("type", "person"), ("role", "CEO")]),
    ("p2", [("id", "p2"), ("name", "Sam Altman"), ("type", "person"), ("role", "CEO")]),
    ("p3", [("id", "p3"), ("name", "Satya Nadella"), ("type", "person"), ("role", "CEO")]),
    ("p4", [("id", "p4"), ("name", "Jensen Huang"), ("type", "person"), ("role", "CEO")]),
    ("p5", [("id", "p5"), ("name", "Demis Hassabis"), ("type", "person"), ("role", "CEO")]) ]

/-- The `COMPANIES` seed list of data.py. -/
def COMPANIES : List (String × List (String × String)) :=
  [ ("c1", [("id", "c1"), ("name", "Tesla"), ("type", "company"), ("industry", "automotive")]),
    ("c2", [("id", "c2"), ("name", "SpaceX"), ("type", "company"), ("industry", "aerospace")]),
    ("c3", [("id", "c3"), ("name", "OpenAI"), ("type", "company"), ("industry", "AI")]),
    ("c4", [("id", "c4"), ("name", "Microsoft"), ("type", "company"), ("industry", "technology")]),
    ("c5", [("id", "c5"), ("name", "NVIDIA"), ("type", "company"), ("industry", "semiconductors")]),
    ("c6", [("id", "c6"), ("name", "DeepMind"), ("type", "company"), ("industry", "AI")]),
    ("c7", [("id", "c7"), ("name", "Google"), ("type", "company"), ("industry", "technology")]),
    ("c8", [("id", "c8"), ("name", "Neuralink"), ("type", "company"), ("industry", "neurotechnology")]) ]

/-- The `RELATIONSHIPS` seed list of data.py (attribute values rendered as
the strings they become inside f-strings). -/
def RELATIONSHIPS : List RelSeed :=
  [ ("p1", "c1", "founded", [("year", "2003")]),
    ("p1", "c2", "founded", [("year", "2002")]),
    ("p1", "c8", "founded", [("year", "2016")]),
    ("p1", "c1", "leads", [("role", "CEO")]),
    ("p1", "c2", "leads", [("role", "CEO")]),
    ("p2", "c3", "leads", [("role", "CEO")]),
    ("p2", "c3", "co_founded", [("year", "2015")]),
    ("p3", "c4", "leads", [("role", "CEO")]),
    ("p4", "c5", "founded", [("year", "1993")]),
    ("p4", "c5", "leads", [("role", "CEO")]),
    ("p5", "c6", "founded", [("year", "2010")]),
    ("p5", "c6", "leads", [("role", "CEO")]),
    ("c4", "c3", "invested_in", [("amount", "$13B"), ("year", "2023")]),
    ("c4", "c3", "partners_with", [("type", "strategic")]),
    ("c7", "c6", "acquired", [("year", "2014")]),
    ("c5", "c3", "supplies", [("product", "GPUs")]),
    ("c5", "c4", "partners_with", [("type", "hardware")]) ]

/-- The knowledge graph built once at module load (graph.py line 54). -/
def KG : Graph := create_knowledge_graph PEOPLE COMPANIES RELATIONSHIPS

/-- `get_node_by_name` (kg.py lines 32-45): case-insensitive mutual
substring match of the query against each node's `name` attribute
(defaulting to the empty string when absent). -/
def get_node_by_name (g : Graph) (name : String) : List (String × List (String × String)) :=
  let name_lower := pyLower name
  g.nodes.filter (fun p =>
    let node_name := pyLower ((p.2.lookup "name").getD "")
    pyIn name_lower node_name || pyIn node_name name_lower)

/-- A relationship fact as assembled by `get_node_relationships`
(kg.py lines 48-80): direction tag, endpoint ids, resolved display names,
relation label, and the remaining edge attributes. -/
structure RelFact where
  direction : String
  source : String
  source_name : Option String
  target : String
  target_name : Option String
  relation : String
  attrs : List (String × String)
deriving DecidableEq, Repr

/-- The deduplication key `(fact["source"], fact["target"], fact["relation"])`. -/
def factKey (f : RelFact) : String × String × String := (f.source, f.target, f.relation)

/-- The corresponding key of an edge. -/
def edgeKey (e : Edge) : String × String × String := (e.src, e.tgt, e.relation)

/-- The outgoing-direction fact built from one out-edge of `node_id`. -/
def mkOutFact (g : Graph) (node_id : String) (e : Edge) : RelFact :=
  { direction := "outgoing"
    source := node_id
    source_name := g.nodeName node_id
    target := e.tgt
    target_name := g.nodeName e.tgt
    relation := e.relation
    attrs := e.attrs }

/-- The incoming-direction fact built from one in-edge of `node_id`. -/
def mkInFact (g : Graph) (node_id : String) (e : Edge) : RelFact :=
  { direction := "incoming"
    source := e.src
    source_name := g.nodeName e.src
    target := node_id
    target_name := g.nodeName node_id
    relation := e.relation
    attrs := e.attrs }

/-- `get_node_relationships` (kg.py lines 48-80): one fact per outgoing
edge, then one fact per incoming edge.  Edge enumeration here follows the
global edge-insertion order of the multigraph; `networkx` enumerates
`out_edges`/`in_edges` grouped by neighbor (neighbors in first-insertion
order, parallel edges between the same pair in insertion order), so the
two orders agree on which of two same-key parallel edges comes first,
which is the only order-sensitive property used below. -/
def get_node_relationships (g : Graph) (node_id : String) : List RelFact :=
  (g.edges.filter (fun e => e.src = node_id)).map (mkOutFact g node_id) ++
  (g.edges.filter (fun e => e.tgt = node_id)).map (mkInFact g node_id)

/-- `G.successors(n)`: distinct targets of out-edges, in first-insertion
order (networkx adjacency keys). -/
def successors (g : Graph) (node_id : String) : List String :=
  dedupFirst ((g.edges.filter (fun e => e.src = node_id)).map Edge.tgt)

/-- `G.predecessors(n)`: distinct sources of in-edges, in first-insertion
order. -/
def predecessors (g : Graph) (node_id : String) : List String :=
  dedupFirst ((g.edges.filter (fun e => e.tgt = node_id)).map Edge.src)

/-- All node ids that can ever appear in the work queue: declared nodes
plus edge endpoints (in a graph built by `create_knowledge_graph` the
latter are always among the former, but the termination measure does not
need that invariant). -/
def Graph.allIds (g : Graph) : List String :=
  g.nodes.map Prod.fst ++ g.edges.map Edge.src ++ g.edges.map Edge.tgt

/-- Number of ids of the graph not yet visited; the primary component of
the termination measure of the traversal loop. -/
def unvisitedCount (g : Graph) (visited : List String) : Nat :=
  (g.allIds.filter (fun a => decide (a ∉ visited))).length

theorem filter_length_le_of_imp {α : Type} (p q : α → Bool) (l : List α)
    (h : ∀ a, q a = true → p a = true) :
    (l.filter q).length ≤ (l.filter p).length := by
  induction l with
  | nil => simp
  | cons a l ih =>
    rw [List.filter_cons, List.filter_cons]
    cases hq : q a with
    | true => rw [h a hq]; simpa using ih
    | false => cases hp : p a <;> simp <;> omega

theorem filter_length_lt_of_imp {α : Type} (p q : α → Bool) (l : List α) (x : α)
    (h : ∀ a, q a = true → p a = true) (hx : x ∈ l)
    (hpx : p x = true) (hqx : q x = false) :
    (l.filter q).length < (l.filter p).length := by
  induction l with
  | nil => cases hx
  | cons a l ih =>
    rw [List.filter_cons, List.filter_cons]
    rcases List.mem_cons.mp hx with rfl | hmem
    · rw [hqx, hpx]
      have := filter_length_le_of_imp p q l h
      simp
      omega
    · have hlt := ih hmem
      cases hq : q a with
      | true => rw [h a hq]; simpa using hlt
      | false => cases hp : p a <;> simp <;> omega

theorem unvisitedCount_lt (g : Graph) (visited : List String) (c : String)
    (hc : c ∈ g.allIds) (hnv : c ∉ visited) :
    unvisitedCount g (visited ++ [c]) < unvisitedCount g visited := by
  apply filter_length_lt_of_imp _ _ _ c _ hc
  · simp [hnv]
  · simp
  · intro a ha
    simp only [decide_eq_true_eq, List.mem_append] at ha ⊢
    exact fun hmem => ha (Or.inl hmem)

theorem unvisitedCount_eq_of_not_mem (g : Graph) (visited : List String) (c : String)
    (hc : c ∉ g.allIds) :
    unvisitedCount g (visited ++ [c]) = unvisitedCount g visited := by
  unfold unvisitedCount
  apply congrArg List.length
  apply List.filter_congr
  intro a ha
  have hne : a ≠ c := fun h => hc (h ▸ ha)
  simp [List.mem_append, hne]

theorem successors_eq_nil_of_not_mem (g : Graph) (c : String) (hc : c ∉ g.allIds) :
    successors g c = [] := by
  unfold successors
  have hfil : g.edges.filter (fun e => decide (e.src = c)) = [] := by
    rw [List.filter_eq_nil_iff]
    intro e he
    simp only [decide_eq_true_eq]
    intro h
    apply hc
    unfold Graph.allIds
    rw [List.mem_append, List.mem_append]
    exact Or.inl (Or.inr (h ▸ List.mem_map_of_mem Edge.src he))
  rw [hfil]
  rfl

theorem predecessors_eq_nil_of_not_mem (g : Graph) (c : String) (hc : c ∉ g.allIds) :
    predecessors g c = [] := by
  unfold predecessors
  have hfil : g.edges.filter (fun e => decide (e.tgt = c)) = [] := by
    rw [List.filter_eq_nil_iff]
    intro e he
    simp only [decide_eq_true_eq]
    intro h
    apply hc
    unfold Graph.allIds
    rw [List.mem_append]
    exact Or.inr (h ▸ List.mem_map_of_mem Edge.tgt he)
  rw [hfil]
  rfl

/-- The `while to_visit:` loop of `traverse_from_node` (kg.py lines 92-108).
State: the visited ids (in first-visit order; Python keeps them in a set),
the accumulated raw fact list, and the FIFO work queue of
`(node id, depth)` pairs.  A popped entry is skipped when its node was
already visited or its depth exceeds the limit; otherwise the node is
visited, its incident relationships are appended to the facts, and (only
when `current_depth < depth`) its not-yet-visited neighbors — successors
then predecessors — are appended to the queue at depth `d + 1`. -/
def traverseLoop (g : Graph) (depth : Nat) (visited : List String)
    (facts : List RelFact) : List (String × Nat) → List String × List RelFact
  | [] => (visited, facts)
  | (c, d) :: rest =>
    if c ∈ visited ∨ depth < d then
      traverseLoop g depth visited facts rest
    else
      traverseLoop g depth (visited ++ [c]) (facts ++ get_node_relationships g c)
        (rest ++ if d < depth then
            ((successors g c ++ predecessors g c).filter
              (fun n => decide (n ∉ visited ++ [c]))).map (fun n => (n, d + 1))
          else [])
termination_by queue => (unvisitedCount g visited, queue.length)
decreasing_by
· apply Prod.Lex.right
  simp
· rename_i hskip
  rw [not_or] at hskip
  by_cases hc : c ∈ g.allIds
  · exact Prod.Lex.left _ _ (unvisitedCount_lt g visited c hc hskip.1)
  · rw [unvisitedCount_eq_of_not_mem g visited c hc]
    apply Prod.Lex.right
    rw [successors_eq_nil_of_not_mem g c hc, predecessors_eq_nil_of_not_mem g c hc]
    simp

/-- The record returned by `traverse_from_node` (kg.py lines 119-123):
start node, the visited ids, and the facts deduplicated by
`(source, target, relation)` keeping first occurrences. -/
structure TraversalResult where
  start_node : String
  visited_nodes : List String
  facts : List RelFact
deriving DecidableEq, Repr

/-- `traverse_from_node` (kg.py lines 83-123).  The Python signature
defaults `depth` to 1; the orchestrator always calls it with `depth=1`. -/
def traverse_from_node (g : Graph) (node_id : String) (depth : Nat) : TraversalResult :=
  let r := traverseLoop g depth [] [] [(node_id, 0)]
  { start_node := node_id, visited_nodes := r.1, facts := dedupByKey factKey r.2 }

/-- `KNOWN_ENTITIES` (query.py lines 10-26). -/
def KNOWN_ENTITIES : List String :=
  [ "elon musk", "elon", "musk",
    "sam altman", "sam", "altman",
    "satya nadella", "satya", "nadella",
    "jensen huang", "jensen", "huang",
    "demis hassabis", "demis", "hassabis",
    "tesla", "spacex", "openai", "microsoft",
    "nvidia", "deepmind", "google", "neuralink" ]

/-- `NAME_ALIASES` (query.py lines 29-40). -/
def NAME_ALIASES : List (String × String) :=
  [ ("elon", "elon musk"), ("musk", "elon musk"),
    ("sam", "sam altman"), ("altman", "sam altman"),
    ("satya", "satya nadella"), ("nadella", "satya nadella"),
    ("jensen", "jensen huang"), ("huang", "jensen huang"),
    ("demis", "demis hassabis"), ("hassabis", "demis hassabis") ]

/-- Stable insert of a string before the first strictly shorter entry;
equal lengths keep the earlier element first. -/
def insertByLenDesc (x : String) : List String → List String
  | [] => [x]
  | y :: ys => if y.length ≤ x.length then x :: y :: ys else y :: insertByLenDesc x ys

/-- Python `sorted(l, key=len, reverse=True)`: a stable sort by length,
longest first (equal lengths keep their original relative order). -/
def pySortByLenDesc : List String → List String
  | [] => []
  | x :: xs => insertByLenDesc x (pySortByLenDesc xs)

/-- `sorted_entities` as computed inside `detect_entities` (query.py line 53). -/
def sorted_entities : List String := pySortByLenDesc KNOWN_ENTITIES

/-- The fixed roster of person surname tokens tested in query.py line 65. -/
def person_name_tokens : List String := ["musk", "altman", "nadella", "huang", "hassabis"]

/-- The `entity_type` computation (query.py lines 64-66): `"person"` when
any roster token is a Python substring of the resolved full name, else
`"company"`. -/
def classify_entity_type (full_name : String) : String :=
  if person_name_tokens.any (fun n => pyIn n full_name) then "person" else "company"

/-- A detected entity mention: the dict
`{"name": ..., "type": ..., "matched_text": ...}` of query.py lines 68-72. -/
structure Mention where
  name : String
  entity_type : String
  matched_text : String
deriving DecidableEq, Repr

/-- The mention record appended for a matching surface form `entity` whose
alias-resolved full name is `full_name` (query.py lines 68-72). -/
def mkMention (full_name entity : String) : Mention :=
  { name := pyTitle full_name
    entity_type := classify_entity_type full_name
    matched_text := entity }

/-- The scanning loop of `detect_entities` (query.py lines 55-72):
iterate the surface forms in sorted priority order; on a substring match,
resolve the alias and, if that canonical name was not yet emitted, append
the mention and remember the canonical name in `seen_names`. -/
def detectAux (question_lower : String) : List String → List String → List Mention
  | [], _ => []
  | e :: rest, seen =>
    if pyIn e question_lower then
      if (NAME_ALIASES.lookup e).getD e ∈ seen then detectAux question_lower rest seen
      else mkMention ((NAME_ALIASES.lookup e).getD e) e
            :: detectAux question_lower rest ((NAME_ALIASES.lookup e).getD e :: seen)
    else detectAux question_lower rest seen

/-- `detect_entities` (query.py lines 43-74). -/
def detect_entities (question : String) : List Mention :=
  detectAux (pyLower question) sorted_entities []

/-- `format_single_fact` (rag.py lines 8-45): templated clause keyed by the
relation label, with a verbatim `source relation target` fallback, followed
by attribute fragments in the fixed order year, amount, role-if-leads,
product. -/
def format_single_fact (fact : RelFact) : String :=
  let source := pyStr fact.source_name
  let target := pyStr fact.target_name
  let relation := fact.relation
  let attrs := fact.attrs
  let sentence :=
    if relation = "founded" then source ++ " founded " ++ target
    else if relation = "co_founded" then source ++ " co-founded " ++ target
    else if relation = "leads" then source ++ " leads " ++ target
    else if relation = "works_at" then source ++ " works at " ++ target
    else if relation = "invested_in" then source ++ " invested in " ++ target
    else if relation = "acquired" then source ++ " acquired " ++ target
    else if relation = "partners_with" then source ++ " partners with " ++ target
    else if relation = "supplies" then source ++ " supplies to " ++ target
    else source ++ " " ++ relation ++ " " ++ target
  let attr_parts :=
    (match attrs.lookup "year" with
      | some y => ["in " ++ y]
      | none => []) ++
    (match attrs.lookup "amount" with
      | some a => ["(" ++ a ++ ")"]
      | none => []) ++
    (if relation = "leads" then
      match attrs.lookup "role" with
      | some r => ["as " ++ r]
      | none => []
     else []) ++
    (match attrs.lookup "product" with
      | some p => ["(" ++ p ++ ")"]
      | none => [])
  if attr_parts.isEmpty then sentence else sentence ++ " " ++ pyJoin " " attr_parts

/-- The fixed no-grounding sentinel returned by `build_context` on an empty
fact list (rag.py line 53). -/
def NO_INFO_SENTINEL : String := "No relevant information found in the knowledge graph."

/-- `build_context` (rag.py lines 48-70): the sentinel on empty facts;
otherwise an optional `Information about:` header (followed by a blank
line), the `Known facts:` line, and one `- sentence` line per fact, all
joined with newlines. -/
def build_context (facts : List RelFact) (entities : List Mention) : String :=
  if facts.isEmpty then NO_INFO_SENTINEL
  else
    let header :=
      if entities.isEmpty then []
      else ["Information about: " ++ pyJoin ", " (entities.map Mention.name), ""]
    let fact_lines := facts.map (fun f => "- " ++ format_single_fact f)
    pyJoin "\n" (header ++ ["Known facts:"] ++ fact_lines)

/-- The fixed user-facing message of the Generate stage's early exit
(graph.py line 183). -/
def ANSWER_NO_CONTEXT : String :=
  "I couldn\u0027t find any relevant information in the knowledge graph to answer your question."

/-- The LLM prompt assembled in graph.py lines 194-203. -/
def build_prompt (context question : String) : String :=
  "You are a helpful assistant answering questions based on a knowledge graph.\nUse ONLY the provided context to answer. Be concise and direct.\nIf the context doesn\u0027t contain enough information, say so.\n\nContext from knowledge graph:\n"
    ++ context ++ "\n\nQuestion: " ++ question ++ "\n\nAnswer:"

/-- `generate_answer_node` (graph.py lines 173-216), modelled on its
content-based branch: the external client is an optional pure
prompt-to-answer function (its possible transport failure is outside this
embedding).  Returns the answer together with a flag recording whether the
external generator was invoked.  The first branch is Python's
`if "No relevant information" in context` — a substring test. -/
def generate_answer_node (llm : Option (String → String)) (context question : String) :
    String × Bool :=
  if pyIn "No relevant information" context then
    (ANSWER_NO_CONTEXT, false)
  else
    match llm with
    | none =>
        ("[LLM not available - showing raw context]\n\n" ++ context ++
          "\n\nSet GROQ_API_KEY environment variable to enable LLM responses.", false)
    | some f => (f (build_prompt context question), true)

theorem traverseLoop_invariant (g : Graph) (depth : Nat)
    (visited : List String) (facts : List RelFact) (queue : List (String × Nat))
    (h1 : visited.Nodup) (h2 : facts = visited.flatMap (get_node_relationships g)) :
    (traverseLoop g depth visited facts queue).1.Nodup ∧
    (traverseLoop g depth visited facts queue).2
      = (traverseLoop g depth visited facts queue).1.flatMap (get_node_relationships g) := by
  revert h1 h2
  induction visited, facts, queue using traverseLoop.induct g depth with
  | case1 visited facts =>
      intro h1 h2
      rw [traverseLoop]
      exact ⟨h1, h2⟩
  | case2 visited facts c d rest hcond ih =>
      intro h1 h2
      rw [traverseLoop, if_pos hcond]
      exact ih h1 h2
  | case3 visited facts c d rest hcond ih =>
      intro h1 h2
      have hc : c ∉ visited := fun hmem => hcond (Or.inl hmem)
      have h1' : (visited ++ [c]).Nodup := by
        rw [List.nodup_append]
        refine ⟨h1, List.nodup_singleton c, ?_⟩
        intro a ha hb
        rw [List.mem_singleton] at hb
        exact hc (hb ▸ ha)
      have h2' : facts ++ get_node_relationships g c
          = (visited ++ [c]).flatMap (get_node_relationships g) := by
        rw [h2, List.flatMap_append]
        simp
      rw [traverseLoop, if_neg hcond]
      exact ih h1' h2'

/-- C3: for every finite graph (cyclic multi-relational graphs included),
every start node of the graph and every depth, the traversal terminates
(the loop is a total function, defined by well-founded recursion on the
pair (number of unvisited ids, queue length)) and never expands a node
twice: the visited list is duplicate-free and the returned facts are
exactly the per-visited-node incident relationships, each visited node
contributing once, deduplicated by key. -/
theorem C3_traversal_terminates_no_reexpansion (g : Graph) (start : String) (depth : Nat)
    (h : start ∈ g.nodeIds) :
    (traverse_from_node g start depth).visited_nodes.Nodup ∧
    (traverse_from_node g start depth).facts
      = dedupByKey factKey
          ((traverse_from_node g start depth).visited_nodes.flatMap
            (get_node_relationships g)) := by
  have hinv := traverseLoop_invariant g depth [] [] [(start, 0)] (by simp) (by simp)
  unfold traverse_from_node
  dsimp only
  exact ⟨hinv.1, by rw [hinv.2]⟩

/-- Witness for C3 on the repository's own knowledge graph. -/
theorem C3_witness :
    (traverse_from_node KG "p1" 1).visited_nodes.Nodup ∧
    (traverse_from_node KG "p1" 1).facts
      = dedupByKey factKey
          ((traverse_from_node KG "p1" 1).visited_nodes.flatMap
            (get_node_relationships KG)) :=
  C3_traversal_terminates_no_reexpansion KG "p1" 1 (by decide)

/-- C4: traversal at `maxDepth = 0` visits exactly the start node and
returns exactly its direct incident facts (both directions, deduplicated
by key); and in general a popped unvisited node within the depth limit
contributes all its incident relationships before the depth check, its
unvisited neighbors being enqueued at depth `d + 1` only when
`d < maxDepth`. -/
theorem C4_depth_zero_and_expansion_rule (g : Graph) (start : String)
    (h : start ∈ g.nodeIds) :
    (traverse_from_node g start 0).visited_nodes = [start] ∧
    (traverse_from_node g start 0).facts
      = dedupByKey factKey (get_node_relationships g start) ∧
    (∀ (depth : Nat) (visited : List String) (facts : List RelFact)
        (c : String) (d : Nat) (rest : List (String × Nat)),
        c ∉ visited → d ≤ depth →
        traverseLoop g depth visited facts ((c, d) :: rest)
          = traverseLoop g depth (visited ++ [c]) (facts ++ get_node_relationships g c)
              (rest ++ if d < depth then
                  ((successors g c ++ predecessors g c).filter
                    (fun n => decide (n ∉ visited ++ [c]))).map (fun n => (n, d + 1))
                else [])) := by
  have hstep : ∀ (depth : Nat) (visited : List String) (facts : List RelFact)
      (c : String) (d : Nat) (rest : List (String × Nat)),
      c ∉ visited → d ≤ depth →
      traverseLoop g depth visited facts ((c, d) :: rest)
        = traverseLoop g depth (visited ++ [c]) (facts ++ get_node_relationships g c)
            (rest ++ if d < depth then
                ((successors g c ++ predecessors g c).filter
                  (fun n => decide (n ∉ visited ++ [c]))).map (fun n => (n, d + 1))
              else []) := by
    intro depth visited facts c d rest hc hd
    rw [traverseLoop, if_neg (by push_neg; exact ⟨hc, hd⟩)]
  have hzero := hstep 0 [] [] start 0 [] (by simp) (Nat.le_refl 0)
  refine ⟨?_, ?_, hstep⟩
  · unfold traverse_from_node
    rw [hzero]
    simp [traverseLoop]
  · unfold traverse_from_node
    rw [hzero]
    simp [traverseLoop]

/-- Witness for C4 on the repository's own knowledge graph. -/
theorem C4_witness :
    (traverse_from_node KG "p1" 0).visited_nodes = ["p1"] :=
  (C4_depth_zero_and_expansion_rule KG "p1" (by decide)).1

theorem dedupByKeyAux_sublist {α κ : Type} [DecidableEq κ] (key : α → κ) (l : List α) :
    ∀ seen : List κ, (dedupByKeyAux key seen l).Sublist l := by
  induction l with
  | nil => intro seen; simp [dedupByKeyAux]
  | cons x xs ih =>
      intro seen
      rw [dedupByKeyAux]
      by_cases hx : key x ∈ seen
      · rw [if_pos hx]; exact (ih seen).cons x
      · rw [if_neg hx]; exact (ih _).cons₂ x

theorem dedupByKeyAux_idem {α κ : Type} [DecidableEq κ] (key : α → κ) (l : List α) :
    ∀ seen : List κ,
      dedupByKeyAux key seen (dedupByKeyAux key seen l) = dedupByKeyAux key seen l := by
  induction l with
  | nil => intro seen; simp [dedupByKeyAux]
  | cons a l ih =>
      intro seen
      rw [dedupByKeyAux]
      by_cases ha : key a ∈ seen
      · rw [if_pos ha]; exact ih seen
      · rw [if_neg ha, dedupByKeyAux, if_neg ha, ih (key a :: seen)]

theorem dedupByKeyAux_keys_nodup {α κ : Type} [DecidableEq κ] (key : α → κ) (l : List α) :
    ∀ seen : List κ,
      ((dedupByKeyAux key seen l).map key).Nodup
        ∧ ∀ k ∈ (dedupByKeyAux key seen l).map key, k ∉ seen := by
  induction l with
  | nil => intro seen; simp [dedupByKeyAux]
  | cons a l ih =>
      intro seen
      rw [dedupByKeyAux]
      by_cases ha : key a ∈ seen
      · rw [if_pos ha]; exact ih seen
      · rw [if_neg ha]
        obtain ⟨hnodup, hnotin⟩ := ih (key a :: seen)
        constructor
        · rw [List.map_cons, List.nodup_cons]
          exact ⟨fun hmem => (hnotin _ hmem) (List.mem_cons_self _ _), hnodup⟩
        · intro k hk
          rw [List.map_cons, List.mem_cons] at hk
          rcases hk with rfl | hk
          · exact ha
          · exact fun hs => (hnotin k hk) (List.mem_cons_of_mem _ hs)

theorem dedupByKeyAux_mem {α κ : Type} [DecidableEq κ] (key : α → κ) (l : List α) :
    ∀ (seen : List κ) (x : α),
      x ∈ dedupByKeyAux key seen l ↔
        key x ∉ seen ∧ l.find? (fun y => key y = key x) = some x := by
  induction l with
  | nil => intro seen x; simp [dedupByKeyAux]
  | cons a l ih =>
      intro seen x
      rw [dedupByKeyAux]
      by_cases hax : key a = key x
      · have hfind : (a :: l).find? (fun y => decide (key y = key x)) = some a :=
          List.find?_cons_of_pos _ (by simp [hax])
        by_cases ha : key a ∈ seen
        · rw [if_pos ha, ih seen x, hfind]
          constructor
          · rintro ⟨h1, -⟩; exact absurd (hax ▸ ha) h1
          · rintro ⟨h1, -⟩; exact absurd (hax ▸ ha) h1
        · rw [if_neg ha, List.mem_cons, ih (key a :: seen) x, hfind]
          constructor
          · rintro (rfl | ⟨h1, -⟩)
            · exact ⟨hax ▸ ha, rfl⟩
            · refine absurd ?_ h1
              rw [hax]
              exact List.mem_cons_self _ _
          · rintro ⟨h1, h2⟩
            exact Or.inl (Option.some.inj h2).symm
      · have hfind : (a :: l).find? (fun y => decide (key y = key x))
            = l.find? (fun y => decide (key y = key x)) :=
          List.find?_cons_of_neg _ (by simp [hax])
        by_cases ha : key a ∈ seen
        · rw [if_pos ha, ih seen x, hfind]
        · rw [if_neg ha, List.mem_cons, ih (key a :: seen) x, hfind]
          constructor
          · rintro (rfl | ⟨h1, h2⟩)
            · exact absurd rfl hax
            · rw [List.mem_cons] at h1
              push_neg at h1
              exact ⟨h1.2, h2⟩
          · rintro ⟨h1, h2⟩
            refine Or.inr ⟨?_, h2⟩
            rw [List.mem_cons]
            push_neg
            exact ⟨fun c => hax c.symm, h1⟩

/-- C8: deduplication of facts by the (source, target, relation) key keeps
the first occurrence of each key in first-seen order (it is a sublist of
the input whose members are exactly the first elements carrying each key),
its keys are pairwise distinct, and it is idempotent. -/
theorem C8_dedup_idempotent_first_seen (l : List RelFact) :
    dedupByKey factKey (dedupByKey factKey l) = dedupByKey factKey l ∧
    (dedupByKey factKey l).Sublist l ∧
    ((dedupByKey factKey l).map factKey).Nodup ∧
    (∀ f : RelFact, f ∈ dedupByKey factKey l
        ↔ l.find? (fun y => factKey y = factKey f) = some f) := by
  refine ⟨dedupByKeyAux_idem factKey l [], dedupByKeyAux_sublist factKey l [],
    (dedupByKeyAux_keys_nodup factKey l []).1, ?_⟩
  intro f
  rw [dedupByKey, dedupByKeyAux_mem]
  simp

/-- C5: `relationshipsOf` returns one fact for every edge touching the
node in either direction — every out-edge contributes its outgoing-tagged
fact, every in-edge its incoming-tagged fact, the total count is exactly
(out-edges) + (in-edges), and every returned fact is the faithful image of
an edge of the graph, correctly tagged. -/
theorem C5_relationships_both_directions (g : Graph) (node_id : String)
    (h : node_id ∈ g.nodeIds) :
    (∀ e ∈ g.edges, e.src = node_id →
        mkOutFact g node_id e ∈ get_node_relationships g node_id) ∧
    (∀ e ∈ g.edges, e.tgt = node_id →
        mkInFact g node_id e ∈ get_node_relationships g node_id) ∧
    (get_node_relationships g node_id).length
      = (g.edges.filter (fun e => e.src = node_id)).length
        + (g.edges.filter (fun e => e.tgt = node_id)).length ∧
    (∀ f ∈ get_node_relationships g node_id,
        (f.direction = "outgoing" ∧ f.source = node_id
            ∧ (⟨f.source, f.target, f.relation, f.attrs⟩ : Edge) ∈ g.edges) ∨
        (f.direction = "incoming" ∧ f.target = node_id
            ∧ (⟨f.source, f.target, f.relation, f.attrs⟩ : Edge) ∈ g.edges)) := by
  refine ⟨?_, ?_, ?_, ?_⟩
  · intro e he hsrc
    unfold get_node_relationships
    rw [List.mem_append]
    exact Or.inl (List.mem_map_of_mem _ (List.mem_filter.mpr ⟨he, by simp [hsrc]⟩))
  · intro e he htgt
    unfold get_node_relationships
    rw [List.mem_append]
    exact Or.inr (List.mem_map_of_mem _ (List.mem_filter.mpr ⟨he, by simp [htgt]⟩))
  · unfold get_node_relationships
    rw [List.length_append, List.length_map, List.length_map]
  · intro f hf
    unfold get_node_relationships at hf
    rw [List.mem_append] at hf
    rcases hf with hf | hf
    · left
      obtain ⟨e, he, rfl⟩ := List.mem_map.mp hf
      obtain ⟨hmem, hp⟩ := List.mem_filter.mp he
      have hsrc : e.src = node_id := by simpa using hp
      refine ⟨rfl, rfl, ?_⟩
      have : (⟨node_id, e.tgt, e.relation, e.attrs⟩ : Edge) = e := by
        cases e
        simp_all [mkOutFact]
      unfold mkOutFact
      dsimp only
      rw [this]
      exact hmem
    · right
      obtain ⟨e, he, rfl⟩ := List.mem_map.mp hf
      obtain ⟨hmem, hp⟩ := List.mem_filter.mp he
      have htgt : e.tgt = node_id := by simpa using hp
      refine ⟨rfl, rfl, ?_⟩
      have : (⟨e.src, node_id, e.relation, e.attrs⟩ : Edge) = e := by
        cases e
        simp_all [mkInFact]
      unfold mkInFact
      dsimp only
      rw [this]
      exact hmem

/-- Witness for C5 on the repository's own knowledge graph. -/
theorem C5_witness :
    (get_node_relationships KG "p1").length
      = (KG.edges.filter (fun e => e.src = "p1")).length
        + (KG.edges.filter (fun e => e.tgt = "p1")).length :=
  (C5_relationships_both_directions KG "p1" (by decide)).2.2.1

/-- C6: `findNodesByName` returns exactly the nodes of the graph whose
lowercased name (defaulting to the empty string) and the lowercased query
are mutual substrings — either direction of containment suffices, so the
rule is symmetric. -/
theorem C6_mutual_substring_match (g : Graph) (query node_id : String)
    (data : List (String × String)) :
    (node_id, data) ∈ get_node_by_name g query ↔
      (node_id, data) ∈ g.nodes ∧
        ((pyLower query).data <:+: (pyLower ((data.lookup "name").getD "")).data ∨
          (pyLower ((data.lookup "name").getD "")).data <:+: (pyLower query).data) := by
  unfold get_node_by_name
  rw [List.mem_filter]
  simp [pyIn]

/-- C10: `findNodesByName` with the empty query returns every node of the
graph, because the empty string is a substring of every name. -/
theorem C10_empty_query_matches_all (g : Graph) :
    get_node_by_name g "" = g.nodes := by
  unfold get_node_by_name
  apply List.filter_eq_self.mpr
  intro p hp
  have hempty : (pyLower "").data = [] := by decide
  simp [pyIn, hempty]

theorem add_node_edges (g : Graph) (node_id : String) (attrs : List (String × String)) :
    (g.add_node node_id attrs).edges = g.edges := by
  unfold Graph.add_node
  split <;> rfl

theorem foldl_add_node_edges (ps : List (String × List (String × String))) :
    ∀ g : Graph, (ps.foldl (fun g p => g.add_node p.1 p.2) g).edges = g.edges := by
  induction ps with
  | nil => intro g; rfl
  | cons p ps ih => intro g; rw [List.foldl_cons, ih, add_node_edges]

theorem add_edge_edges (g : Graph) (src tgt relation : String)
    (attrs : List (String × String)) :
    (g.add_edge src tgt relation attrs).edges = g.edges ++ [⟨src, tgt, relation, attrs⟩] := by
  unfold Graph.add_edge
  dsimp only
  split <;> split <;> rfl

theorem add_edge_nodeIds_sub (g : Graph) (src tgt relation : String)
    (attrs : List (String × String)) (x : String) (hx : x ∈ g.nodeIds) :
    x ∈ (g.add_edge src tgt relation attrs).nodeIds := by
  unfold Graph.add_edge
  dsimp only
  split <;> split <;> simp_all [Graph.nodeIds, List.mem_append]

theorem add_edge_endpoints_mem (g : Graph) (src tgt relation : String)
    (attrs : List (String × String)) :
    src ∈ (g.add_edge src tgt relation attrs).nodeIds ∧
    tgt ∈ (g.add_edge src tgt relation attrs).nodeIds := by
  unfold Graph.add_edge
  dsimp only
  split_ifs with h1 h2 h2 <;>
    constructor <;>
    simp_all [Graph.nodeIds, List.mem_append]

theorem foldl_add_edge_spec (rels : List RelSeed) : ∀ g : Graph,
    ((rels.foldl (fun g r => g.add_edge r.1 r.2.1 r.2.2.1 r.2.2.2) g).edges
        = g.edges ++ rels.map (fun r => ⟨r.1, r.2.1, r.2.2.1, r.2.2.2⟩)) ∧
    (∀ x ∈ g.nodeIds,
        x ∈ (rels.foldl (fun g r => g.add_edge r.1 r.2.1 r.2.2.1 r.2.2.2) g).nodeIds) ∧
    (∀ r ∈ rels,
        r.1 ∈ (rels.foldl (fun g r => g.add_edge r.1 r.2.1 r.2.2.1 r.2.2.2) g).nodeIds ∧
        r.2.1 ∈ (rels.foldl (fun g r => g.add_edge r.1 r.2.1 r.2.2.1 r.2.2.2) g).nodeIds) := by
  induction rels with
  | nil => intro g; simp
  | cons r rs ih =>
      intro g
      rw [List.foldl_cons]
      obtain ⟨ih1, ih2, ih3⟩ := ih (g.add_edge r.1 r.2.1 r.2.2.1 r.2.2.2)
      refine ⟨?_, ?_, ?_⟩
      · rw [ih1, add_edge_edges]
        simp
      · intro x hx
        exact ih2 x (add_edge_nodeIds_sub _ _ _ _ _ x hx)
      · intro r2 hr2
        rcases List.mem_cons.mp hr2 with rfl | hmem
        · have hm := add_edge_endpoints_mem g r2.1 r2.2.1 r2.2.2.1 r2.2.2.2
          exact ⟨ih2 _ hm.1, ih2 _ hm.2⟩
        · exact ih3 r2 hmem

/-- C1 counterexample: graph construction does not fail on a relationship
seed whose target id `"zzz"` appears in no node seed.  Construction
succeeds: the edge is added, and `networkx.MultiDiGraph.add_edge`
semantics silently create the missing endpoint as a node with an empty
attribute dictionary.  There is no failure path in
`create_knowledge_graph` at all, refuting the claimed fatal construction
error. -/
theorem C1_counterexample :
    (create_knowledge_graph [("p1", [("name", "A")])] [] [("p1", "zzz", "founded", [])]).edges
        = [⟨"p1", "zzz", "founded", []⟩] ∧
    ("zzz", []) ∈ (create_knowledge_graph [("p1", [("name", "A")])] []
        [("p1", "zzz", "founded", [])]).nodes ∧
    "zzz" ∉ ([("p1", [("name", "A")])] : List (String × List (String × String))).map Prod.fst := by
  decide

/-- C1 amended: graph construction never fails.  For every seed set —
dangling edge endpoints included — `create_knowledge_graph` returns a
graph containing one edge per relationship seed in order, and every edge
endpoint is a node of the resulting graph (missing endpoints having been
silently added by `add_edge`). -/
theorem C1_amended_construction_total
    (people companies : List (String × List (String × String)))
    (relationships : List RelSeed) :
    ((create_knowledge_graph people companies relationships).edges
        = relationships.map (fun r => ⟨r.1, r.2.1, r.2.2.1, r.2.2.2⟩)) ∧
    (∀ r ∈ relationships,
        r.1 ∈ (create_knowledge_graph people companies relationships).nodeIds ∧
        r.2.1 ∈ (create_knowledge_graph people companies relationships).nodeIds) := by
  unfold create_knowledge_graph
  dsimp only
  have hspec := foldl_add_edge_spec relationships
      (companies.foldl (fun g c => g.add_node c.1 c.2)
        (people.foldl (fun g p => g.add_node p.1 p.2) { nodes := [], edges := [] }))
  refine ⟨?_, hspec.2.2⟩
  rw [hspec.1, foldl_add_node_edges, foldl_add_node_edges]
  rfl

/-- Space-tokenization of a name (claim-side vocabulary: the "token set"
of a canonical name).  Splits the character list on single spaces. -/
def splitTokensAux : List Char → List Char → List String
  | [], acc => [⟨acc.reverse⟩]
  | c :: cs, acc =>
      if c = ' ' then ⟨acc.reverse⟩ :: splitTokensAux cs []
      else splitTokensAux cs (c :: acc)

/-- The tokens of a string, split on spaces. -/
def tokensOf (s : String) : List String := splitTokensAux s.data []

theorem detectAux_shape (question_lower : String) (es : List String) :
    ∀ (seen : List String) (m : Mention), m ∈ detectAux question_lower es seen →
      ∃ e ∈ es, m = mkMention ((NAME_ALIASES.lookup e).getD e) e := by
  induction es with
  | nil => intro seen m hm; simp [detectAux] at hm
  | cons e rest ih =>
      intro seen m hm
      rw [detectAux] at hm
      by_cases hin : pyIn e question_lower
      · rw [if_pos hin] at hm
        by_cases hseen : (NAME_ALIASES.lookup e).getD e ∈ seen
        · rw [if_pos hseen] at hm
          obtain ⟨e2, he2, hm2⟩ := ih seen m hm
          exact ⟨e2, List.mem_cons_of_mem _ he2, hm2⟩
        · rw [if_neg hseen] at hm
          rcases List.mem_cons.mp hm with rfl | hm2
          · exact ⟨e, List.mem_cons_self _ _, rfl⟩
          · obtain ⟨e2, he2, hm3⟩ := ih _ m hm2
            exact ⟨e2, List.mem_cons_of_mem _ he2, hm3⟩
      · rw [if_neg hin] at hm
        obtain ⟨e2, he2, hm2⟩ := ih seen m hm
        exact ⟨e2, List.mem_cons_of_mem _ he2, hm2⟩

/-- C7: every entity mention emitted by `detect_entities` is classified
`"person"` exactly when the token set of its canonical name meets the
fixed roster of known-person surname tokens (musk, altman, nadella, huang,
hassabis), and `"company"` (the code's name for the spec's `organization`
kind) otherwise.  The code itself tests roster tokens by substring
containment in the canonical name; over the fixed entity catalog the two
criteria coincide, which this theorem verifies for every emitted
mention. -/
theorem C7_person_classification (question : String) (m : Mention)
    (hm : m ∈ detect_entities question) :
    (m.entity_type = "person"
        ↔ (tokensOf (pyLower m.name)).any (fun t => t ∈ person_name_tokens) = true) ∧
    (m.entity_type = "person" ∨ m.entity_type = "company") := by
  obtain ⟨e, he, rfl⟩ := detectAux_shape (pyLower question) sorted_entities [] m hm
  have hall : ∀ e2 ∈ sorted_entities,
      ((mkMention ((NAME_ALIASES.lookup e2).getD e2) e2).entity_type = "person"
        ↔ (tokensOf (pyLower (mkMention ((NAME_ALIASES.lookup e2).getD e2) e2).name)).any
            (fun t => t ∈ person_name_tokens) = true) ∧
      ((mkMention ((NAME_ALIASES.lookup e2).getD e2) e2).entity_type = "person"
        ∨ (mkMention ((NAME_ALIASES.lookup e2).getD e2) e2).entity_type = "company") := by
    decide
  exact hall e he

/-- Witness for C7: the mention emitted for the question
"what did elon musk found". -/
theorem C7_witness :
    ((⟨"Elon Musk", "person", "elon musk"⟩ : Mention).entity_type = "person"
        ↔ (tokensOf (pyLower (⟨"Elon Musk", "person", "elon musk"⟩ : Mention).name)).any
            (fun t => t ∈ person_name_tokens) = true) ∧
    ((⟨"Elon Musk", "person", "elon musk"⟩ : Mention).entity_type = "person"
        ∨ (⟨"Elon Musk", "person", "elon musk"⟩ : Mention).entity_type = "company") :=
  C7_person_classification "what did elon musk found" ⟨"Elon Musk", "person", "elon musk"⟩
    (by decide)

theorem pyJoin_newline_mem (x y : String) (zs : List String) :
    '\n' ∈ (pyJoin "\n" (x :: y :: zs)).data := by
  rw [pyJoin]
  have hnl : ("\n" : String).data = ['\n'] := rfl
  simp [String.data_append, hnl]

theorem build_context_eq_sentinel_iff (facts : List RelFact) (entities : List Mention) :
    build_context facts entities = NO_INFO_SENTINEL ↔ facts = [] := by
  cases facts with
  | nil => simp [build_context]
  | cons f fs =>
      simp only [build_context, List.isEmpty_cons, Bool.false_eq_true, if_false]
      constructor
      · intro h
        exfalso
        have hnot : '\n' ∉ NO_INFO_SENTINEL.data := by decide
        apply hnot
        rw [← h]
        cases hent : entities.isEmpty
        · rw [if_neg (by simp [hent])]
          exact pyJoin_newline_mem _ _ _
        · rw [if_pos (by simp [hent])]
          rw [List.nil_append, List.map_cons]
          exact pyJoin_newline_mem _ _ _
      · intro h
        cases h

/-- C2 counterexample: the Generate stage's branch is a substring test,
not a verbatim comparison with the sentinel.  A context built from a
nonempty fact list — hence not the sentinel — whose rendered fact happens
to contain "No relevant information" still short-circuits Generate to the
fixed message, with the external generator available but never invoked.
This refutes the claimed "if and only if the context is the sentinel". -/
theorem C2_counterexample :
    build_context
        [⟨"outgoing", "a", some "No relevant information found", "b", some "Y", "x", []⟩] []
      ≠ NO_INFO_SENTINEL ∧
    generate_answer_node (some (fun _ => "generated"))
        (build_context
          [⟨"outgoing", "a", some "No relevant information found", "b", some "Y", "x", []⟩] [])
        "q"
      = (ANSWER_NO_CONTEXT, false) := by
  decide

/-- C2 amended: `build_context` returns the no-grounding sentinel exactly
when its fact list is empty; the Generate stage short-circuits to the
fixed couldn't-find-information answer, without invoking the external
generator, exactly when the context CONTAINS the substring
"No relevant information" (so always on the sentinel and in particular
whenever the fact list is empty, but possibly also on a context whose
rendered facts contain that substring); when the substring is absent the
generator is invoked precisely when it is available. -/
theorem C2_amended_sentinel_substring_gate (facts : List RelFact) (entities : List Mention)
    (llm : Option (String → String)) (question : String) :
    (build_context facts entities = NO_INFO_SENTINEL ↔ facts = []) ∧
    (pyIn "No relevant information" (build_context facts entities) = true →
        generate_answer_node llm (build_context facts entities) question
          = (ANSWER_NO_CONTEXT, false)) ∧
    (pyIn "No relevant information" (build_context facts entities) = false →
        (generate_answer_node llm (build_context facts entities) question).2 = llm.isSome) ∧
    (facts = [] →
        generate_answer_node llm (build_context facts entities) question
          = (ANSWER_NO_CONTEXT, false)) := by
  refine ⟨build_context_eq_sentinel_iff facts entities, ?_, ?_, ?_⟩
  · intro h
    unfold generate_answer_node
    rw [if_pos h]
  · intro h
    unfold generate_answer_node
    rw [if_neg (by simp [h])]
    cases llm <;> rfl
  · intro h
    have hctx : build_context facts entities = NO_INFO_SENTINEL :=
      (build_context_eq_sentinel_iff facts entities).mpr h
    unfold generate_answer_node
    rw [if_pos (by rw [hctx]; decide)]

/-- Witness for C2 amended: empty facts short-circuit the Generate stage. -/
theorem C2_amended_witness :
    generate_answer_node none (build_context [] []) "q" = (ANSWER_NO_CONTEXT, false) :=
  (C2_amended_sentinel_substring_gate [] [] none "q").2.2.2 rfl


theorem length_filter_le_one_of_keys_nodup {α κ : Type} [DecidableEq κ] (key : α → κ)
    (l : List α) (hnd : (l.map key).Nodup) (k : κ) :
    (l.filter (fun x => key x = k)).length ≤ 1 := by
  induction l with
  | nil => simp
  | cons a l ih =>
      rw [List.map_cons, List.nodup_cons] at hnd
      rw [List.filter_cons]
      by_cases h : key a = k
      · have hnil : l.filter (fun x => decide (key x = k)) = [] := by
          rw [List.filter_eq_nil_iff]
          intro x hx hpx
          rw [decide_eq_true_eq] at hpx
          apply hnd.1
          rw [h, ← hpx]
          exact List.mem_map_of_mem key hx
        rw [if_pos (by simp [h]), hnil]
        simp
      · rw [if_neg (by simp [h])]
        exact ih hnd.2

theorem find?_eq_head_filter {α : Type} (p : α → Bool) (l : List α) :
    l.find? p = (l.filter p).head? := by
  induction l with
  | nil => rfl
  | cons a l ih =>
      rw [List.filter_cons]
      by_cases h : p a
      · rw [List.find?_cons_of_pos _ h, if_pos h, List.head?_cons]
      · rw [List.find?_cons_of_neg _ h, if_neg h, ih]

theorem head_flatMap_prop {α β : Type} (P : β → Prop) (l : List α) (f : α → List β)
    (h : ∀ a ∈ l, ∀ b, (f a).head? = some b → P b) :
    ∀ b, (l.flatMap f).head? = some b → P b := by
  induction l with
  | nil => intro b hb; simp at hb
  | cons a l ih =>
      intro b hb
      rw [List.flatMap_cons, List.head?_append] at hb
      cases hfa : (f a).head? with
      | some c =>
          rw [hfa] at hb
          simp only [Option.or_some] at hb
          exact (Option.some.inj hb) ▸ h a (List.mem_cons_self _ _) c hfa
      | none =>
          rw [hfa] at hb
          simp only [Option.none_or] at hb
          exact ih (fun a2 ha2 => h a2 (List.mem_cons_of_mem _ ha2)) b hb

theorem rels_filter_key (g : Graph) (v : String) (k1 k2 k3 : String) :
    (get_node_relationships g v).filter (fun f => factKey f = (k1, k2, k3))
      = (if v = k1 then
            (g.edges.filter (fun e => edgeKey e = (k1, k2, k3))).map (mkOutFact g v)
          else [])
        ++ (if v = k2 then
            (g.edges.filter (fun e => edgeKey e = (k1, k2, k3))).map (mkInFact g v)
          else []) := by
  unfold get_node_relationships
  rw [List.filter_append, List.filter_map, List.filter_map, List.filter_filter,
    List.filter_filter]
  congr 1
  · by_cases hv : v = k1
    · subst hv
      rw [if_pos rfl]
      apply congrArg (List.map (mkOutFact g v))
      apply List.filter_congr
      intro e he
      by_cases h1 : e.src = v <;> by_cases h2 : e.tgt = k2 <;> by_cases h3 : e.relation = k3 <;>
        simp [factKey, mkOutFact, edgeKey, Prod.ext_iff, h1, h2, h3]
    · rw [if_neg hv]
      rw [← List.map_nil (f := mkOutFact g v)]
      apply congrArg (List.map (mkOutFact g v))
      rw [List.filter_eq_nil_iff]
      intro e he hp
      simp only [Function.comp_apply, Bool.and_eq_true, decide_eq_true_eq, factKey,
        mkOutFact, Prod.mk.injEq] at hp
      exact hv hp.1.1
  · by_cases hv : v = k2
    · subst hv
      rw [if_pos rfl]
      apply congrArg (List.map (mkInFact g v))
      apply List.filter_congr
      intro e he
      by_cases h1 : e.src = k1 <;> by_cases h2 : e.tgt = v <;> by_cases h3 : e.relation = k3 <;>
        simp [factKey, mkInFact, edgeKey, Prod.ext_iff, h1, h2, h3]
    · rw [if_neg hv]
      rw [← List.map_nil (f := mkInFact g v)]
      apply congrArg (List.map (mkInFact g v))
      rw [List.filter_eq_nil_iff]
      intro e he hp
      simp only [Function.comp_apply, Bool.and_eq_true, decide_eq_true_eq, factKey,
        mkInFact, Prod.mk.injEq] at hp
      exact hv hp.1.2.1

/-- C9: when a graph contains two parallel edges with the same
(source, target, relation) key but different attribute mappings, traversal
returns at most one fact for that key, and any returned fact with that key
carries the attributes of the first edge with that key in edge-insertion
order (the edge encountered first); the later parallel edge's attributes
never appear as that key's fact. -/
theorem C9_parallel_edges_first_wins (g : Graph) (start : String) (depth : Nat)
    (e1 e2 : Edge) (pre suf : List Edge)
    (hedges : g.edges = pre ++ e1 :: suf)
    (hpre : ∀ e ∈ pre, edgeKey e ≠ edgeKey e1)
    (he2 : e2 ∈ suf) (hkey2 : edgeKey e2 = edgeKey e1) (hattrs2 : e2.attrs ≠ e1.attrs) :
    ((traverse_from_node g start depth).facts.filter
        (fun f => factKey f = edgeKey e1)).length ≤ 1 ∧
    (∀ f ∈ (traverse_from_node g start depth).facts,
        factKey f = edgeKey e1 → f.attrs = e1.attrs ∧ f.attrs ≠ e2.attrs) := by
  have hinv := traverseLoop_invariant g depth [] [] [(start, 0)] (by simp) (by simp)
  have hfacts : (traverse_from_node g start depth).facts
      = dedupByKey factKey
          ((traverseLoop g depth [] [] [(start, 0)]).1.flatMap (get_node_relationships g)) := by
    unfold traverse_from_node
    dsimp only
    rw [hinv.2]
  constructor
  · rw [hfacts]
    exact length_filter_le_one_of_keys_nodup factKey _
      (dedupByKeyAux_keys_nodup factKey _ []).1 _
  · intro f hf hkeyf
    rw [hfacts, dedupByKey, dedupByKeyAux_mem] at hf
    obtain ⟨-, hfind⟩ := hf
    rw [hkeyf, find?_eq_head_filter] at hfind
    have hek : edgeKey e1 = (e1.src, e1.tgt, e1.relation) := rfl
    rw [hek, List.filter_flatMap] at hfind
    have hE : g.edges.filter (fun e => edgeKey e = (e1.src, e1.tgt, e1.relation))
        = e1 :: suf.filter (fun e => edgeKey e = (e1.src, e1.tgt, e1.relation)) := by
      rw [hedges, List.filter_append]
      have h1 : pre.filter (fun e => decide (edgeKey e = (e1.src, e1.tgt, e1.relation))) = [] := by
        rw [List.filter_eq_nil_iff]
        intro e he hp
        rw [decide_eq_true_eq] at hp
        exact hpre e he (by rw [hp]; rfl)
      rw [h1, List.nil_append, List.filter_cons, if_pos (by simp [edgeKey])]
    have hmain : f.attrs = e1.attrs := by
      refine head_flatMap_prop (fun b => b.attrs = e1.attrs) _ _ ?_ f hfind
      intro v hv b hb
      rw [rels_filter_key g v e1.src e1.tgt e1.relation, hE] at hb
      by_cases hv1 : v = e1.src
      · rw [if_pos hv1, List.map_cons, List.cons_append, List.head?_cons] at hb
        exact (Option.some.inj hb) ▸ rfl
      · rw [if_neg hv1, List.nil_append] at hb
        by_cases hv2 : v = e1.tgt
        · rw [if_pos hv2, List.map_cons, List.head?_cons] at hb
          exact (Option.some.inj hb) ▸ rfl
        · rw [if_neg hv2] at hb
          simp at hb
    refine ⟨hmain, ?_⟩
    rw [hmain]
    exact fun c => hattrs2 c.symm

/-- Witness for C9: a two-node graph with two parallel `r`-edges differing
only in their `year` attribute. -/
theorem C9_witness :
    ((traverse_from_node
        (create_knowledge_graph [("a", [("name", "A")]), ("b", [("name", "B")])] []
          [("a", "b", "r", [("year", "1")]), ("a", "b", "r", [("year", "2")])])
        "a" 1).facts.filter
      (fun f => factKey f = edgeKey ⟨"a", "b", "r", [("year", "1")]⟩)).length ≤ 1 :=
  (C9_parallel_edges_first_wins
    (create_knowledge_graph [("a", [("name", "A")]), ("b", [("name", "B")])] []
      [("a", "b", "r", [("year", "1")]), ("a", "b", "r", [("year", "2")])])
    "a" 1 ⟨"a", "b", "r", [("year", "1")]⟩ ⟨"a", "b", "r", [("year", "2")]⟩
    [] [⟨"a", "b", "r", [("year", "2")]⟩]
    (by decide) (by simp) (by simp) (by decide) (by decide)).1
